import Mathlib

/-!
Verification development for the hn_station ingestion and enrichment
pipeline.  Go sources are modelled by a shallow embedding: machine
integers become `Int`/`Nat`, SQL tables become association lists,
fallible operations return `Option`, and external collaborators
(HN client, HTTP, the AI backend) become explicit oracle arguments.
-/

namespace HNStation

/-! ## Go string helpers (package `strings`), restricted to the ASCII
uses in this repository. -/

/-- `strings.TrimSpace` on a character list. -/
def goTrimSpaceList (l : List Char) : List Char :=
  ((l.dropWhile Char.isWhitespace).reverse.dropWhile Char.isWhitespace).reverse

/-- `strings.TrimSpace`. -/
def goTrimSpace (s : String) : String :=
  String.mk (goTrimSpaceList s.data)

/-- `strings.HasPrefix`. -/
def goHasPrefix (s pre : String) : Bool :=
  pre.data.isPrefixOf s.data

/-- `strings.HasSuffix`. -/
def goHasSuffix (s suf : String) : Bool :=
  suf.data.isSuffixOf s.data

/-- `strings.TrimPrefix`. -/
def goTrimPrefix (s pre : String) : String :=
  if goHasPrefix s pre then String.mk (s.data.drop pre.data.length) else s

/-- `strings.TrimSuffix`. -/
def goTrimSuffix (s suf : String) : String :=
  if goHasSuffix s suf then
    String.mk (s.data.take (s.data.length - suf.data.length))
  else s

/-- Infix test on character lists. -/
def listInfix (sub l : List Char) : Bool :=
  (List.range (l.length + 1)).any (fun i => sub.isPrefixOf (l.drop i))

/-- `strings.Contains`. -/
def goContains (s sub : String) : Bool :=
  listInfix sub.data s.data

/-- `strings.Index` for a single character (used with braces only);
returns the first index or `none` for Go's `-1`. -/
def goIndexChar (s : String) (c : Char) : Option Nat :=
  s.data.findIdx? (· = c)

/-- `strings.LastIndex` for a single character. -/
def goLastIndexChar (s : String) (c : Char) : Option Nat :=
  match s.data.reverse.findIdx? (· = c) with
  | none => none
  | some i => some (s.data.length - 1 - i)

/-- Byte-range slice `s[a:b]` (inputs here are ASCII, so character
indices coincide with Go's byte indices). -/
def goSlice (s : String) (a b : Nat) : String :=
  String.mk ((s.data.take b).drop a)

/-- `strings.ToUpper` (ASCII). -/
def goToUpper (s : String) : String := String.mk (s.data.map Char.toUpper)

/-- `strings.ToLower` (ASCII). -/
def goToLower (s : String) : String := String.mk (s.data.map Char.toLower)

/-- `strings.Join`. -/
def goJoin (sep : String) (parts : List String) : String :=
  match parts with
  | [] => ""
  | p :: rest => rest.foldl (fun acc q => acc ++ sep ++ q) p

/-- `strings.Split` on a one-character separator. -/
def goSplitChar (s : String) (sep : Char) : List String :=
  (s.data.foldr
    (fun c acc =>
      match acc with
      | [] => [[c]]
      | g :: gs => if c = sep then [] :: (g :: gs) else (c :: g) :: gs)
    [[]]).map String.mk

/-- `strings.Trim(s, "/")`: remove leading and trailing slashes. -/
def goTrimSlashes (s : String) : String :=
  String.mk (((s.data.dropWhile (· = '/')).reverse.dropWhile (· = '/')).reverse)

/-- The character `\x7b` (opening curly brace). -/
def lbrace : Char := Char.ofNat 123

/-- The character `\x7d` (closing curly brace). -/
def rbrace : Char := Char.ofNat 125

/-! ## A model of Go `encoding/json` values

`Json` stands for the dynamic value a Go `interface{}` receives from
`json.Unmarshal`: JSON null becomes Go `nil`, objects become
`map[string]interface{}`, arrays `[]interface{}`, strings `string`.
Numbers keep their source lexeme (the pipeline never inspects them). -/

inductive Json where
  | null : Json
  | bool : Bool → Json
  | num : String → Json
  | str : String → Json
  | arr : List Json → Json
  | obj : List (String × Json) → Json

/-- JSON insignificant whitespace. -/
def isJsonWs (c : Char) : Bool :=
  c = ' ' || c = '\t' || c = '\n' || c = '\r'

/-- Skip insignificant whitespace. -/
def skipWs (l : List Char) : List Char := l.dropWhile isJsonWs

/-- Hexadecimal digit value for `\u` escapes. -/
def hexVal (c : Char) : Option Nat :=
  if '0' ≤ c ∧ c ≤ '9' then some (c.toNat - '0'.toNat)
  else if 'a' ≤ c ∧ c ≤ 'f' then some (c.toNat - 'a'.toNat + 10)
  else if 'A' ≤ c ∧ c ≤ 'F' then some (c.toNat - 'A'.toNat + 10)
  else none

/-- Characters that may occur in a JSON number lexeme. -/
def isNumChar (c : Char) : Bool :=
  c.isDigit || c = '-' || c = '+' || c = '.' || c = 'e' || c = 'E'

/-- JSON string body parser (after the opening quote), fuelled. -/
def parseStrAux : Nat → List Char → List Char → Option (String × List Char)
  | 0, _, _ => none
  | Nat.succ fuel, acc, input =>
    match input with
    | [] => none
    | '"' :: rest => some (String.mk acc.reverse, rest)
    | '\\' :: esc =>
      match esc with
      | 'n' :: r => parseStrAux fuel ('\n' :: acc) r
      | 't' :: r => parseStrAux fuel ('\t' :: acc) r
      | 'r' :: r => parseStrAux fuel ('\r' :: acc) r
      | 'b' :: r => parseStrAux fuel ((Char.ofNat 8) :: acc) r
      | 'f' :: r => parseStrAux fuel ((Char.ofNat 12) :: acc) r
      | '"' :: r => parseStrAux fuel ('"' :: acc) r
      | '\\' :: r => parseStrAux fuel ('\\' :: acc) r
      | '/' :: r => parseStrAux fuel ('/' :: acc) r
      | 'u' :: h1 :: h2 :: h3 :: h4 :: r =>
        match hexVal h1, hexVal h2, hexVal h3, hexVal h4 with
        | some a, some b, some c, some d =>
          parseStrAux fuel ((Char.ofNat (((a * 16 + b) * 16 + c) * 16 + d)) :: acc) r
        | _, _, _, _ => none
      | _ => none
    | c :: rest => parseStrAux fuel (c :: acc) rest

mutual

/-- Recursive-descent JSON value parser (the subset `encoding/json`
accepts on the documents this pipeline sees), fuelled. -/
def parseVal : Nat → List Char → Option (Json × List Char)
  | 0, _ => none
  | Nat.succ fuel, input =>
    match skipWs input with
    | [] => none
    | c :: rest =>
      if c = lbrace then parseObjBody fuel rest []
      else if c = '[' then parseArrBody fuel rest []
      else if c = '"' then
        match parseStrAux (rest.length + 1) [] rest with
        | some (s, r) => some (Json.str s, r)
        | none => none
      else if c = 't' then
        match rest with
        | 'r' :: 'u' :: 'e' :: r => some (Json.bool true, r)
        | _ => none
      else if c = 'f' then
        match rest with
        | 'a' :: 'l' :: 's' :: 'e' :: r => some (Json.bool false, r)
        | _ => none
      else if c = 'n' then
        match rest with
        | 'u' :: 'l' :: 'l' :: r => some (Json.null, r)
        | _ => none
      else if c.isDigit || c = '-' then
        some (Json.num (String.mk (c :: rest.takeWhile isNumChar)),
              rest.dropWhile isNumChar)
      else none

/-- Object body parser: called after the opening brace. -/
def parseObjBody : Nat → List Char → List (String × Json) →
    Option (Json × List Char)
  | 0, _, _ => none
  | Nat.succ fuel, input, acc =>
    match skipWs input with
    | [] => none
    | c :: rest =>
      if c = rbrace && acc.isEmpty then some (Json.obj [], rest)
      else if c = '"' then
        match parseStrAux (rest.length + 1) [] rest with
        | none => none
        | some (key, afterKey) =>
          match skipWs afterKey with
          | ':' :: afterColon =>
            match parseVal fuel afterColon with
            | none => none
            | some (v, afterVal) =>
              match skipWs afterVal with
              | ',' :: more => parseObjBody fuel more (acc ++ [(key, v)])
              | d :: more =>
                if d = rbrace then some (Json.obj (acc ++ [(key, v)]), more)
                else none
              | [] => none
          | _ => none
      else none

/-- Array body parser: called after the opening bracket. -/
def parseArrBody : Nat → List Char → List Json → Option (Json × List Char)
  | 0, _, _ => none
  | Nat.succ fuel, input, acc =>
    match skipWs input with
    | ']' :: rest =>
      if acc.isEmpty then some (Json.arr [], rest) else none
    | other =>
      match parseVal fuel other with
      | none => none
      | some (v, afterVal) =>
        match skipWs afterVal with
        | ',' :: more => parseArrBody fuel more (acc ++ [v])
        | ']' :: more => some (Json.arr (acc ++ [v]), more)
        | _ => none

end

/-- `json.Unmarshal`'s syntactic phase: parse one document and require
only whitespace after it. -/
def parseJson (s : String) : Option Json :=
  match parseVal (4 * s.data.length + 16) s.data with
  | some (j, rest) => if skipWs rest = [] then some j else none
  | none => none

/-! ## The summarization result parser (ingest `processSummary`)

Embeds the post-processing in `processSummary`: code-fence/brace
cleanup, `json.Unmarshal` into
`struct { Summary interface{}; Topics []string }`, the tolerant
flattening, and the raw-text fallback. -/

/-- Go struct-field lookup for a JSON object: later duplicate keys
overwrite earlier ones. -/
def objLookupLast (fields : List (String × Json)) (k : String) : Option Json :=
  fields.foldl (fun acc f => if f.1 = k then some f.2 else acc) none

/-- Is this JSON value a string? -/
def Json.isStr : Json → Bool
  | Json.str _ => true
  | _ => false

/-- The string carried by a JSON value (empty for non-strings). -/
def Json.getStr : Json → String
  | Json.str s => s
  | _ => ""

/-- Decoding the `topics` field into Go's `[]string`: absent or JSON
null yields the nil slice; an array must consist of strings only,
anything else is an `UnmarshalTypeError` (the whole `json.Unmarshal`
call then returns an error). -/
def decodeTopicsField : Option Json → Option (List String)
  | none => some []
  | some Json.null => some []
  | some (Json.arr xs) =>
    if xs.all Json.isStr then some (xs.map Json.getStr) else none
  | some _ => none

/-- `json.Unmarshal(cleanJSON, &intermediate)` for
`struct { Summary interface{} json:summary; Topics []string json:topics }`:
a JSON object decodes field-wise (`Summary` accepts any value,
`Topics` only a flat string array); top-level JSON null is a no-op
success in Go; any other top-level shape is a type error. -/
def decodeIntermediate : Json → Option (Json × List String)
  | Json.null => some (Json.null, [])
  | Json.obj fields =>
    match decodeTopicsField (objLookupLast fields "topics") with
    | some ts => some ((objLookupLast fields "summary").getD Json.null, ts)
    | none => none
  | _ => none

/-- `flattenStringArray` from the ingest main: handles `string`,
`[]interface{}` and one level of nesting (taking the first element of
a nested array); everything else flattens to the empty list.  The Go
`[]string` case is unreachable from a `json.Unmarshal` result and the
`[]string` input site is the identity on it, which this list model
makes definitional. -/
def flattenStringArray : Json → List String
  | Json.null => []
  | Json.str s => [s]
  | Json.arr items =>
    items.foldl
      (fun acc item =>
        match item with
        | Json.str s => acc ++ [s]
        | Json.arr (Json.str s :: _) => acc ++ [s]
        | _ => acc)
      []
  | _ => []

mutual

/-- `fmt.Sprintf("%v", x)` on a decoded JSON value (only the shapes
this pipeline can see; reached only when the summary is neither a
string nor flattenable). -/
def goFmtV : Json → String
  | Json.null => "<nil>"
  | Json.bool true => "true"
  | Json.bool false => "false"
  | Json.num raw => raw
  | Json.str s => s
  | Json.arr xs => "[" ++ goFmtVList xs ++ "]"
  | Json.obj fields => "map[" ++ goFmtVFields fields ++ "]"

/-- Space-separated `%v` rendering of a slice. -/
def goFmtVList : List Json → String
  | [] => ""
  | [x] => goFmtV x
  | x :: y :: xs => goFmtV x ++ " " ++ goFmtVList (y :: xs)

/-- Space-separated `%v` rendering of a map's entries. -/
def goFmtVFields : List (String × Json) → String
  | [] => ""
  | [f] => f.1 ++ ":" ++ goFmtV f.2
  | f :: g :: fs => f.1 ++ ":" ++ goFmtV f.2 ++ " " ++ goFmtVFields (g :: fs)

end

/-- Brace extraction (ingest `processSummary` lines 176–181): keep the
substring from the first `\x7b` to the last `\x7d` when both exist in
that order. -/
def extractBraceSpan (s : String) : String :=
  match goIndexChar s lbrace, goLastIndexChar s rbrace with
  | some firstBrace, some lastBrace =>
    if firstBrace < lastBrace then goSlice s firstBrace (lastBrace + 1) else s
  | _, _ => s

/-- The bullet-point normalization of the flattened summary parts
(ingest `processSummary` lines 205–217). -/
def bulletJoin (parts : List String) : String :=
  goJoin "\n"
    (parts.foldl
      (fun acc s0 =>
        let s := goTrimSpace s0
        if s = "" then acc
        else if goHasPrefix s "-" || goHasPrefix s "â€¢" then acc ++ [s]
        else acc ++ ["- " ++ s])
      [])

/-- The summarization result parser: `processSummary` (ingest main,
lines 174–226) from the raw AI response to the `(summary, topics)`
pair that is persisted.  On any JSON parse or unmarshal error the raw
response text becomes the summary and the topic list is empty. -/
def parseSummaryResponse (responseStr : String) : String × List String :=
  let cleanJSON := goTrimSpace responseStr
  let cleanJSON := extractBraceSpan cleanJSON
  let cleanJSON := goTrimPrefix cleanJSON "```json"
  let cleanJSON := goTrimPrefix cleanJSON "```"
  let cleanJSON := goTrimSuffix cleanJSON "```"
  let cleanJSON := goTrimSpace cleanJSON
  match (parseJson cleanJSON).bind decodeIntermediate with
  | none => (responseStr, [])
  | some (summaryDyn, topics) =>
    let summaryParts := flattenStringArray summaryDyn
    if summaryParts.length > 0 then
      (bulletJoin summaryParts, flattenStringArray (Json.arr (topics.map Json.str)))
    else
      match summaryDyn with
      | Json.str s => (s, flattenStringArray (Json.arr (topics.map Json.str)))
      | _ => (goFmtV summaryDyn, flattenStringArray (Json.arr (topics.map Json.str)))

/-- AI response shape (a) of the malformed-response tolerance property:
a plain (non-JSON) string. -/
def respPlainString : String := "A plain text answer about the article."

/-- AI response shape (b): a well-formed flat summary/topics object. -/
def respFlat : String :=
  "\x7b\"summary\": [\"a\",\"b\"], \"topics\": [\"x\"]\x7d"

/-- AI response shape (c): nested single-element arrays in both fields. -/
def respNested : String :=
  "\x7b\"summary\": [[\"a\"],[\"b\"]], \"topics\": [[\"x\"]]\x7d"

/-- AI response shape (d): non-JSON garbage. -/
def respGarbage : String := "???not-json???"


/-! ## Storage model (package `storage`)

The `stories`, `comments` and `users` tables become lists of rows;
SQL `NOW()` becomes an explicit `now` argument.  The `stories` table
carries `summary`/`topics` columns (written only by the summarization
sub-pipeline); the storage source under version control predates those
columns, so the rows follow the spec's §3 data model there. -/

/-- Input value of `storage.Story` as passed to `UpsertStory` (the
Go struct's `CreatedAt` is ignored by both the insert and the update
arms, so it is omitted). -/
structure StoryIn where
  ID : Int
  Title : String
  URL : String
  Score : Int
  By : String
  Descendants : Int
  PostedAt : Int
  HNRank : Option Int
  deriving Repr, DecidableEq

/-- A persisted row of the `stories` table. -/
structure StoryRow where
  ID : Int
  Title : String
  URL : String
  Score : Int
  By : String
  Descendants : Int
  PostedAt : Int
  CreatedAt : Int
  HNRank : Option Int
  Summary : Option String
  Topics : List String
  deriving Repr, DecidableEq

/-- Input value of `storage.Comment` as passed to `UpsertComment`. -/
structure CommentIn where
  ID : Int
  StoryID : Int
  ParentID : Option Int
  Text : String
  By : String
  PostedAt : Int
  deriving Repr, DecidableEq

/-- A persisted row of the `comments` table. -/
structure CommentRow where
  ID : Int
  StoryID : Int
  ParentID : Option Int
  Text : String
  By : String
  PostedAt : Int
  CreatedAt : Int
  deriving Repr, DecidableEq

/-- Input value of `storage.User` as passed to `UpsertUser`. -/
structure UserIn where
  ID : String
  Created : Int
  Karma : Int
  About : String
  Submitted : List Int
  deriving Repr, DecidableEq

/-- A persisted row of the `users` table. -/
structure UserRow where
  ID : String
  Created : Int
  Karma : Int
  About : String
  Submitted : List Int
  UpdatedAt : Int
  deriving Repr, DecidableEq

/-- The relational store visible to the pipeline. -/
structure DB where
  stories : List StoryRow
  comments : List CommentRow
  users : List UserRow
  deriving Repr, DecidableEq

/-- `INSERT ... ON CONFLICT (key) DO UPDATE`: if any row matches the
key, apply the update arm to it; otherwise append the insert row. -/
def upsertRow {ρ : Type} (hit : ρ → Bool) (ins : ρ) (upd : ρ → ρ)
    (rows : List ρ) : List ρ :=
  if rows.any hit then rows.map (fun r => if hit r then upd r else r)
  else rows ++ [ins]

/-- The insert arm of `UpsertStory`: `created_at = NOW()`, the
summary/topics columns default to NULL/empty. -/
def storyInsertRow (now : Int) (s : StoryIn) : StoryRow :=
  { ID := s.ID, Title := s.Title, URL := s.URL, Score := s.Score,
    By := s.By, Descendants := s.Descendants, PostedAt := s.PostedAt,
    CreatedAt := now, HNRank := s.HNRank, Summary := none, Topics := [] }

/-- The conflict arm of `UpsertStory`: overwrite title, url, score,
by, descendants, posted_at and hn_rank from the excluded row;
created_at, summary and topics are not in the SET list. -/
def storyConflictUpdate (s : StoryIn) (r : StoryRow) : StoryRow :=
  { r with
    Title := s.Title, URL := s.URL, Score := s.Score,
    By := s.By, Descendants := s.Descendants, PostedAt := s.PostedAt,
    HNRank := s.HNRank }

/-- `Store.UpsertStory`. -/
def upsertStory (now : Int) (s : StoryIn) (rows : List StoryRow) : List StoryRow :=
  upsertRow (fun r => r.ID == s.ID) (storyInsertRow now s) (storyConflictUpdate s) rows

/-- The insert arm of `UpsertComment`. -/
def commentInsertRow (now : Int) (c : CommentIn) : CommentRow :=
  { ID := c.ID, StoryID := c.StoryID, ParentID := c.ParentID,
    Text := c.Text, By := c.By, PostedAt := c.PostedAt, CreatedAt := now }

/-- The conflict arm of `UpsertComment`: only `text` and `posted_at`
are in the SET list. -/
def commentConflictUpdate (c : CommentIn) (r : CommentRow) : CommentRow :=
  { r with Text := c.Text, PostedAt := c.PostedAt }

/-- `Store.UpsertComment`. -/
def upsertComment (now : Int) (c : CommentIn) (rows : List CommentRow) : List CommentRow :=
  upsertRow (fun r => r.ID == c.ID) (commentInsertRow now c) (commentConflictUpdate c) rows

/-- Observation: the comment row with a given primary key (`id` is the
`comments` table's primary key, so at most one row matches). -/
def getComment (rows : List CommentRow) (id : Int) : Option CommentRow :=
  rows.find? (fun r => r.ID == id)

/-- The insert arm of `UpsertUser`: `updated_at = NOW()`. -/
def userInsertRow (now : Int) (u : UserIn) : UserRow :=
  { ID := u.ID, Created := u.Created, Karma := u.Karma, About := u.About,
    Submitted := u.Submitted, UpdatedAt := now }

/-- The conflict arm of `UpsertUser`: karma, about, submitted and
`updated_at = NOW()`; `created` is not in the SET list. -/
def userConflictUpdate (now : Int) (u : UserIn) (r : UserRow) : UserRow :=
  { r with
    Karma := u.Karma, About := u.About, Submitted := u.Submitted,
    UpdatedAt := now }

/-- `Store.UpsertUser`. -/
def upsertUser (now : Int) (u : UserIn) (rows : List UserRow) : List UserRow :=
  upsertRow (fun r => r.ID == u.ID) (userInsertRow now u) (userConflictUpdate now u) rows

/-- `Store.ClearRanksNotIn`: with an empty ID list it returns before
executing any SQL; otherwise
`UPDATE stories SET hn_rank = NULL WHERE hn_rank IS NOT NULL AND id != ALL(ids)`. -/
def clearRanksNotIn (ids : List Int) (rows : List StoryRow) : List StoryRow :=
  if ids.isEmpty then rows
  else rows.map (fun r =>
    if r.HNRank.isSome && !(ids.contains r.ID) then { r with HNRank := none } else r)

/-- `Store.UpdateRanks` as the batch of single-row
`UPDATE stories SET hn_rank = $1 WHERE id = $2` statements.  The Go
map is modelled by the `(id, rank)` pair list: duplicate and
arbitrarily reordered entries produce the same final table because
each statement touches only the rows of its own id and the last write
wins, which matches the map's last-wins construction. -/
def updateRanks (pairs : List (Int × Int)) (rows : List StoryRow) : List StoryRow :=
  pairs.foldl
    (fun rs p => rs.map (fun r => if r.ID == p.1 then { r with HNRank := some p.2 } else r))
    rows

/-- The `(id, rank)` pairs of `rankMap` starting at rank `n + 1`. -/
def rankPairsFrom (n : Int) : List Int → List (Int × Int)
  | [] => []
  | id :: rest => (id, n + 1) :: rankPairsFrom (n + 1) rest

/-- The `rankMap` built by `runIngestion`: id at 0-based position `i`
of the top list maps to rank `i + 1`. -/
def rankPairs (ids : List Int) : List (Int × Int) :=
  rankPairsFrom 0 ids

/-- Go map lookup on the pair-list model (last write wins). -/
def mapLookup (pairs : List (Int × Int)) (k : Int) : Option Int :=
  pairs.foldl (fun acc p => if p.1 == k then some p.2 else acc) none

/-- `Store.GetStory` (`SELECT ... WHERE id = $1`, id is the primary key). -/
def getStory (rows : List StoryRow) (id : Int) : Option StoryRow :=
  rows.find? (fun r => r.ID == id)

/-- Modelled from the spec: `update_story_summary_and_topics(id,
summary, topics)` of the §6 storage contract (the storage source file
carrying it is not under version control here): set the two
enrichment columns on the story with the given id. -/
def updateStorySummaryAndTopics (id : Int) (summary : String)
    (topics : List String) (rows : List StoryRow) : List StoryRow :=
  rows.map (fun r =>
    if r.ID == id then { r with Summary := some summary, Topics := topics } else r)

/-- Modelled from the spec: `get_stories_status(ids) ->
map<id, has_summary>` of the §6 storage contract: whether the story
currently has a non-empty summary. -/
def hasSummaryStatus (rows : List StoryRow) (id : Int) : Bool :=
  match getStory rows id with
  | some r =>
    match r.Summary with
    | some s => s ≠ ""
    | none => false
  | none => false

/-- The strict priority order used by pruning: ranked before unranked,
lower rank first, then newer `posted_at`, with the id as a final
tiebreak to make the order total. -/
def pruneBefore (s r : StoryRow) : Bool :=
  match s.HNRank, r.HNRank with
  | some a, some b =>
    if a ≠ b then a < b
    else if s.PostedAt ≠ r.PostedAt then s.PostedAt > r.PostedAt
    else s.ID < r.ID
  | some _, none => true
  | none, some _ => false
  | none, none =>
    if s.PostedAt ≠ r.PostedAt then s.PostedAt > r.PostedAt
    else s.ID < r.ID

/-- Modelled from the spec: `prune_stories(keep_count)` of §4.7/§6
(the storage source file carrying it is not under version control
here): delete story records beyond the retention count in
recency/rank order, never deleting a protected record.  A row
survives iff it is protected or fewer than `keep` rows precede it. -/
def pruneStories (keep : Nat) (isProt : Int → Bool) (rows : List StoryRow) : List StoryRow :=
  rows.filter (fun r =>
    isProt r.ID || (rows.filter (fun s => pruneBefore s r)).length < keep)

/-! ## Ingestion pipeline (ingest main, `part_008`)

The HN client and the clock become oracle arguments: `fetch` is
`client.GetItem` (`none` = fetch error), `userFetch` is
`client.GetUser`.  The comment walk takes a fuel bound (the Go code
recurses on the child graph without a cycle guard); no claim below
depends on the fuel value.  The 5 story workers write disjoint story
rows (each candidate id appears once), so the worker pool is modelled
as a sequential fold over the candidate list. -/

/-- An item of the remote content source, §3's Item shape (the
`internal/hn` client source is not under version control here; the
fields are the ones the pipeline reads). -/
structure Item where
  ID : Int
  Typ : String
  Title : String
  URL : String
  Score : Int
  By : String
  Descendants : Int
  Time : Int
  Kids : List Int
  Deleted : Bool
  Dead : Bool
  Text : String
  deriving Repr, DecidableEq

/-- A queued summarization job (`SummaryJob`). -/
structure SummaryJob where
  ID : Int
  URL : String
  Title : String
  deriving Repr, DecidableEq

/-- The non-blocking `select`/`default` send onto the bounded summary
channel: append when below capacity, drop (returning `false`)
otherwise; a total function, so it can neither block nor panic. -/
def tryEnqueue (cap : Nat) (q : List SummaryJob) (j : SummaryJob) :
    List SummaryJob × Bool :=
  if q.length < cap then (q ++ [j], true) else (q, false)

/-- The `storage.Story` value built by `processStory` from a fetched
item and the rank pointer. -/
def storyInOf (item : Item) (rank : Option Int) : StoryIn :=
  { ID := item.ID, Title := item.Title, URL := item.URL,
    Score := item.Score, By := item.By, Descendants := item.Descendants,
    PostedAt := item.Time, HNRank := rank }

/-- `processUser`: fetch the profile and upsert it; a fetch error only
logs.  (In Go this runs as a detached goroutine; it writes only the
`users` table, so running it in place preserves every other table.) -/
def processUser (userFetch : String → Option UserIn) (now : Int)
    (username : String) (users : List UserRow) : List UserRow :=
  match userFetch username with
  | none => users
  | some u => upsertUser now u users

/-- `processComments`: walk the child list depth-first; skip fetch
errors, non-comments and deleted/dead items; upsert the comment, fire
the author upsert, and recurse into the children with this comment as
the parent.  Fuelled because the source recursion has no cycle guard. -/
def processComments (fetch : Int → Option Item) (userFetch : String → Option UserIn)
    (now : Int) : Nat → List Int → Int → Option Int → DB → DB
  | 0, _, _, _, db => db
  | Nat.succ _, [], _, _, db => db
  | Nat.succ fuel, kidID :: rest, storyID, parentID, db =>
    let db :=
      match fetch kidID with
      | none => db
      | some item =>
        if item.Typ ≠ "comment" || item.Deleted || item.Dead then db
        else
          let c : CommentIn :=
            { ID := item.ID, StoryID := storyID, ParentID := parentID,
              Text := item.Text, By := item.By, PostedAt := item.Time }
          let db := { db with comments := upsertComment now c db.comments }
          let db :=
            if item.By ≠ "" then
              { db with users := processUser userFetch now item.By db.users }
            else db
          if item.Kids.isEmpty then db
          else processComments fetch userFetch now fuel item.Kids storyID (some item.ID) db
    processComments fetch userFetch now fuel rest storyID parentID db

/-- The conditional-enqueue test of the ingest `processStory`
(lines 347–364): non-empty URL, score strictly above 10, and a single
`GetStory` lookup showing either no non-empty summary
(`needsSummary`, which a failed lookup also satisfies) or a non-empty
summary with an empty topic list (`needsTopics`). -/
def wantsSummaryJob (stories : List StoryRow) (id : Int) (item : Item) : Bool :=
  item.URL ≠ "" && item.Score > 10 &&
    (match getStory stories id with
     | none => true
     | some r =>
       (match r.Summary with
        | none => true
        | some s => s = "" || (s ≠ "" && r.Topics.length == 0)))

/-- `processStory` of the ingest main: fetch the item, skip
non-stories, upsert the story row, conditionally try the non-blocking
summary enqueue, fire the author upsert, and walk the comment tree. -/
def processStoryP8 (fetch : Int → Option Item) (userFetch : String → Option UserIn)
    (now : Int) (fuel : Nat) (qcap : Nat) (id : Int) (rank : Option Int)
    (state : DB × List SummaryJob) : DB × List SummaryJob :=
  match fetch id with
  | none => state
  | some item =>
    if item.Typ ≠ "story" then state
    else
      let db := state.1
      let q := state.2
      let db := { db with stories := upsertStory now (storyInOf item rank) db.stories }
      let q :=
        if wantsSummaryJob db.stories id item then
          (tryEnqueue qcap q { ID := id, URL := item.URL, Title := item.Title }).1
        else q
      let db :=
        if item.By ≠ "" then
          { db with users := processUser userFetch now item.By db.users }
        else db
      let db :=
        if item.Kids.isEmpty then db
        else processComments fetch userFetch now fuel item.Kids item.ID none db
      (db, q)

/-- `runIngestion` of the ingest main: truncate the fetched top list
to `TotalStories = 20`, clear stale ranks, bulk-update current ranks,
process every candidate id (each worker reads its rank from the rank
map), and prune the store back to 20 (protected = saved stories). -/
def runIngestionP8 (fetch : Int → Option Item) (userFetch : String → Option UserIn)
    (now : Int) (fuel : Nat) (isProt : Int → Bool) (topIDsFetched : List Int)
    (db : DB) (q : List SummaryJob) : DB × List SummaryJob :=
  let topIDs := topIDsFetched.take 20
  let rm := rankPairs topIDs
  let db := { db with stories := clearRanksNotIn topIDs db.stories }
  let db := { db with stories := updateRanks rm db.stories }
  let st := topIDs.foldl
    (fun st id => processStoryP8 fetch userFetch now fuel 100 id
      (some ((mapLookup rm id).getD 0)) st)
    (db, q)
  ({ st.1 with stories := pruneStories 20 isProt st.1.stories }, st.2)

/-! ## Ingestion variant with top+new discovery (`cmd/catchup`, second unit)

This unit unions top and new IDs, orders ranked ids first, truncates
to 200, skips already-summarized stale stories via a batch status map,
and prunes to 100.  Its worker count is 1, so the sequential fold is
the literal worker semantics. -/

/-- Deduplication via the Go `map[int]struct\x7b\x7d` set (membership
only; the enumeration order is arbitrary in Go, see `sortIDs`). -/
def dedupFirst (l : List Int) : List Int :=
  l.foldl (fun acc x => if acc.contains x then acc else acc ++ [x]) []

/-- The `sort.Slice` comparator of the catchup-unit `runIngestion`:
ranked ids first in ascending rank, unranked ids last in descending
(newest-first) id order. -/
def cuLess (rm : List (Int × Int)) (a b : Int) : Bool :=
  match mapLookup rm a, mapLookup rm b with
  | some rI, some rJ => rI < rJ
  | some _, none => true
  | none, some _ => false
  | none, none => a > b

/-- Insertion into a list sorted by `less`. -/
def insertByLess (less : Int → Int → Bool) (x : Int) : List Int → List Int
  | [] => [x]
  | y :: ys => if less x y then x :: y :: ys else y :: insertByLess less x ys

/-- Insertion sort by `less`.  `sort.Slice` is unstable, but `cuLess`
is a total strict order on distinct ids (ranks are distinct and the
id breaks every remaining tie), so every correct sort — Go's and this
one — produces the same list from any enumeration of the id set. -/
def sortIDs (less : Int → Int → Bool) (l : List Int) : List Int :=
  l.foldr (insertByLess less) []

/-- The conditional-enqueue test of the catchup-unit `processStory`
(lines 540–552): non-empty URL, score strictly above 10, and a
*successful* `GetStory` lookup whose summary is NULL or empty (a
failed lookup does not enqueue in this variant, and there is no
topics backfill). -/
def wantsSummaryJobCU (stories : List StoryRow) (id : Int) (item : Item) : Bool :=
  item.URL ≠ "" && item.Score > 10 &&
    (match getStory stories id with
     | none => false
     | some r =>
       (match r.Summary with
        | none => true
        | some s => s = ""))

/-- `processStory` of the catchup-unit ingestion loop. -/
def processStoryCU (fetch : Int → Option Item) (userFetch : String → Option UserIn)
    (now : Int) (fuel : Nat) (id : Int) (rank : Option Int)
    (state : DB × List SummaryJob) : DB × List SummaryJob :=
  match fetch id with
  | none => state
  | some item =>
    if item.Typ ≠ "story" then state
    else
      let db := state.1
      let q := state.2
      let db := { db with stories := upsertStory now (storyInOf item rank) db.stories }
      let q :=
        if wantsSummaryJobCU db.stories id item then
          (tryEnqueue 500 q { ID := id, URL := item.URL, Title := item.Title }).1
        else q
      let db :=
        if item.By ≠ "" then
          { db with users := processUser userFetch now item.By db.users }
        else db
      let db :=
        if item.Kids.isEmpty then db
        else processComments fetch userFetch now fuel item.Kids item.ID none db
      (db, q)

/-- The per-id worker body of the catchup-unit ingestion loop,
including the skip criteria driven by the batch summary-status map:
skip when the story already has a summary and is either unranked or
ranked below the top 50. -/
def workerStepCU (fetch : Int → Option Item) (userFetch : String → Option UserIn)
    (now : Int) (fuel : Nat) (rm : List (Int × Int)) (status : Int → Bool)
    (st : DB × List SummaryJob) (id : Int) : DB × List SummaryJob :=
  let rankLookup := mapLookup rm id
  let hasSummary := status id
  match rankLookup with
  | some rank =>
    if hasSummary && rank > 50 then st
    else processStoryCU fetch userFetch now fuel id (some rank) st
  | none =>
    if hasSummary then st
    else processStoryCU fetch userFetch now fuel id none st

/-- `runIngestion` of the catchup unit (lines 376–500): clear stale
ranks against the full top list, bulk-update ranks, union and
deduplicate top+new, order ranked-first/newest-last, truncate to 200,
pre-fetch the summary-status map, run the (single) worker over the
list, and prune the store back to 100. -/
def runIngestionCU (fetch : Int → Option Item) (userFetch : String → Option UserIn)
    (now : Int) (fuel : Nat) (isProt : Int → Bool)
    (topIDs newIDs : List Int) (db : DB) (q : List SummaryJob) :
    DB × List SummaryJob :=
  let db := { db with stories := clearRanksNotIn topIDs db.stories }
  let rm := rankPairs topIDs
  let db := { db with stories := updateRanks rm db.stories }
  let ids := (sortIDs (cuLess rm) (dedupFirst (topIDs ++ newIDs))).take 200
  let status := hasSummaryStatus db.stories
  let st := ids.foldl (workerStepCU fetch userFetch now fuel rm status) (db, q)
  ({ st.1 with stories := pruneStories 100 isProt st.1.stories }, st.2)

/-! ## Content fetcher (package `content`, `FetchArticle`)

HTTP becomes data: the original GET's response is an argument, the
two raw-README requests are an oracle from URL to `Option` response
(`none` = transport error), and the PDF extractor and the
go-readability library are oracles as well.  `fetchArticle` returns
`none` where the Go function returns an error — and also on the one
input class where the Go code would dereference a nil response (both
raw-README requests fail with transport errors after overwriting
`resp`), which likewise never yields a successful return. -/

/-- A cut-down HTTP response: status plus the three headers the
fetcher reads, and the body. -/
structure HttpResponse where
  Status : Nat
  XFrameOptions : String
  CSP : String
  ContentType : String
  Body : String
  deriving Repr, DecidableEq

/-- `content.FetchResult`. -/
structure FetchResult where
  Content : String
  Title : String
  CanIframe : Bool
  deriving Repr, DecidableEq

/-- First index at which `sub` occurs in `l`. -/
def findSubstrIdx (sub l : List Char) : Option Nat :=
  (List.range (l.length + 1)).find? (fun i => sub.isPrefixOf (l.drop i))

/-- `url.Parse(urlStr).Path`: the part after scheme and authority, cut
before query and fragment (enough of Go's parser for the URLs this
fetcher classifies). -/
def urlPath (u : String) : String :=
  let chars := u.data
  let path :=
    match findSubstrIdx "://".data chars with
    | some i =>
      let afterScheme := chars.drop (i + 3)
      match afterScheme.findIdx? (· = '/') with
      | some j => afterScheme.drop j
      | none => []
    | none => chars
  String.mk (path.takeWhile (fun c => c ≠ '?' && c ≠ '#'))

/-- The GitHub repo-root test (`FetchArticle` lines 290–294): URL
mentions `github.com` and its trimmed path has exactly two segments. -/
def isRepoRoot (urlStr : String) : Bool :=
  goContains urlStr "github.com" &&
    (goSplitChar (goTrimSlashes (urlPath urlStr)) '/').length == 2

/-- The raw default-branch README URL tried by the GitHub shortcut. -/
def rawReadmeURL (urlStr branch : String) : String :=
  let parts := goSplitChar (goTrimSlashes (urlPath urlStr)) '/'
  let p0 := parts.headD ""
  let p1 := (parts.drop 1).headD ""
  "https://raw.githubusercontent.com/" ++ p0 ++ "/" ++ p1 ++ "/" ++ branch ++ "/README.md"

/-- The iframe-compatibility check (`FetchArticle` lines 313–323):
embeddable unless X-Frame-Options is DENY or SAMEORIGIN or the
Content-Security-Policy mentions frame-ancestors. -/
def canEmbedOf (resp : HttpResponse) : Bool :=
  let xFrame := goToUpper resp.XFrameOptions
  !(xFrame == "DENY" || xFrame == "SAMEORIGIN") &&
    !(goContains (goToLower resp.CSP) "frame-ancestors")

/-- The PDF sniff (`FetchArticle` lines 326–327): Content-Type or URL
suffix. -/
def isPDFReq (urlStr : String) (resp : HttpResponse) : Bool :=
  goContains (goToLower resp.ContentType) "application/pdf" ||
    goHasSuffix (goToLower urlStr) ".pdf"

/-- Whether the PDF branch returns: sniffed as PDF, extraction
succeeds, and the text exceeds 100 bytes. -/
def pdfHit (urlStr : String) (resp : HttpResponse)
    (pdfExtract : String → Option String) : Bool :=
  isPDFReq urlStr resp &&
    (match pdfExtract resp.Body with
     | some content => content.length > 100
     | none => false)

/-- Tag stripping state machine of `stripTags`. -/
def stripTagsAux : List Char → Bool → List Char
  | [], _ => []
  | c :: rest, inTag =>
    if c = '<' then stripTagsAux rest true
    else if c = '>' then stripTagsAux rest false
    else if inTag then stripTagsAux rest true
    else c :: stripTagsAux rest false

/-- `strings.Fields`: whitespace-separated words. -/
def goFields (s : String) : List String :=
  ((s.data.foldr
    (fun c acc =>
      match acc with
      | [] => if c.isWhitespace then [] else [[c]]
      | g :: gs => if c.isWhitespace then [] :: (g :: gs) else (c :: g) :: gs)
    []).filter (fun g => !g.isEmpty)).map String.mk

/-- `content.stripTags`: drop everything between angle brackets and
normalize whitespace to single spaces. -/
def stripTags (html : String) : String :=
  goJoin " " (goFields (String.mk (stripTagsAux html.data false)))

/-- The PDF branch of `FetchArticle` (lines 326–340): on a sniffed
PDF whose extraction succeeds with more than 100 bytes, return the
extracted text with `CanIframe: false`; otherwise fall through. -/
def pdfAttempt (urlStr : String) (resp : HttpResponse)
    (pdfExtract : String → Option String) : Option FetchResult :=
  if isPDFReq urlStr resp then
    match pdfExtract resp.Body with
    | some content =>
      if content.length > 100 then
        some { Content := content, Title := "PDF Document: " ++ urlStr,
               CanIframe := false }
      else none
    | none => none
  else none

/-- The HTML part of `FetchArticle` (lines 342–365): cap the body at
2MB, try readability, fall back to naive tag stripping; both outcomes
carry the header-derived `canIframe`. -/
def htmlExtract (resp : HttpResponse)
    (readab : String → Option (String × String)) : FetchResult :=
  let canIframe := canEmbedOf resp
  let body := String.mk (resp.Body.data.take (2 * 1024 * 1024))
  match readab body with
  | some (title, text) =>
    if text ≠ "" then { Content := text, Title := title, CanIframe := canIframe }
    else { Content := stripTags body, Title := "Unknown Title",
           CanIframe := canIframe }
  | none =>
    { Content := stripTags body, Title := "Unknown Title", CanIframe := canIframe }

/-- The shared tail of `FetchArticle` (lines 313–365): header
classification, PDF attempt, readability extraction, raw-HTML
fallback.  `respO = none` models the nil response left behind when
both raw-README requests fail (the Go code would crash reading its
headers). -/
def fetchArticleTail (urlStr : String) (respO : Option HttpResponse)
    (pdfExtract : String → Option String)
    (readab : String → Option (String × String)) : Option FetchResult :=
  match respO with
  | none => none
  | some resp =>
    match pdfAttempt urlStr resp pdfExtract with
    | some r => some r
    | none => some (htmlExtract resp readab)

/-- `content.FetchArticle`.  For a GitHub repo root the code first
tries the raw master/main READMEs; each attempt *overwrites* `resp`,
so when neither returns 200 the shared tail runs against the last
raw-README response (or a nil response if that request failed). -/
def fetchArticle (urlStr : String) (resp0 : HttpResponse)
    (githubRaw : String → Option HttpResponse)
    (pdfExtract : String → Option String)
    (readab : String → Option (String × String)) : Option FetchResult :=
  if isRepoRoot urlStr then
    let parts := goSplitChar (goTrimSlashes (urlPath urlStr)) '/'
    let p0 := parts.headD ""
    let p1 := (parts.drop 1).headD ""
    let readme := fun (r : HttpResponse) =>
      some { Content := r.Body, Title := "GitHub README: " ++ p0 ++ "/" ++ p1,
             CanIframe := false }
    match githubRaw (rawReadmeURL urlStr "master") with
    | some r =>
      if r.Status == 200 then readme r
      else
        match githubRaw (rawReadmeURL urlStr "main") with
        | some r2 =>
          if r2.Status == 200 then readme r2
          else fetchArticleTail urlStr (some r2) pdfExtract readab
        | none => fetchArticleTail urlStr none pdfExtract readab
    | none =>
      match githubRaw (rawReadmeURL urlStr "main") with
      | some r2 =>
        if r2.Status == 200 then readme r2
        else fetchArticleTail urlStr (some r2) pdfExtract readab
      | none => fetchArticleTail urlStr none pdfExtract readab
  else fetchArticleTail urlStr (some resp0) pdfExtract readab

/-! ## AI client retry loop (`internal/ai/ollama.go`, `generateWithRetry`)

The backend becomes an oracle giving each attempt's outcome, and the
context a predicate saying whether cancellation is observed during
the backoff wait that follows a failed attempt. -/

/-- Outcome of the retry loop. -/
inductive RetryResult where
  | success : String → RetryResult
  | ctxCancelled : RetryResult
  | failedAfterRetries : String → RetryResult
  deriving Repr, DecidableEq

/-- The loop of `generateWithRetry`: at most `retriesLeft` further
attempts; a success returns immediately; after a failure the code
waits `backoff` (recorded in the returned wait list) unless the
context is cancelled during that wait, and doubles the backoff.  Note
the Go loop also waits after the final failed attempt before
returning the wrapped last error. -/
def retryAux (call : Nat → Except String String) (cancelled : Nat → Bool) :
    Nat → Nat → Nat → String → RetryResult × List Nat
  | 0, _, _, lastErr => (RetryResult.failedAfterRetries lastErr, [])
  | Nat.succ n, i, backoff, _ =>
    match call i with
    | Except.ok s => (RetryResult.success s, [])
    | Except.error e =>
      if cancelled i then (RetryResult.ctxCancelled, [])
      else
        let st := retryAux call cancelled n (i + 1) (backoff * 2) e
        (st.1, backoff :: st.2)

/-- `generateWithRetry`: `maxRetries = 3`, initial backoff 2 seconds
(milliseconds here); `call i` is attempt `i`'s outcome
(`doOllamaRequest` folds transport errors and non-200 statuses into
one error value), `cancelled i` is context cancellation observed
during the wait after attempt `i`.  Returns the outcome — where
`failedAfterRetries e` stands for Go's wrapped
`failed after retries: e` — and the list of backoff waits performed. -/
def generateWithRetry (call : Nat → Except String String) (cancelled : Nat → Bool) :
    RetryResult × List Nat :=
  retryAux call cancelled 3 0 2000 ""

def mkStoryItem (i : Int) : Item :=
  { ID := i, Typ := "story", Title := "t", URL := "", Score := 5, By := "",
    Descendants := 0, Time := 0, Kids := [], Deleted := false, Dead := false,
    Text := "" }

def scC4Fetch : Int → Option Item := fun i =>
  if ([5, 3, 9, 7] : List Int).contains i then some (mkStoryItem i) else none

def scRow42 : StoryRow :=
  { ID := 42, Title := "t", URL := "", Score := 0, By := "", Descendants := 0,
    PostedAt := 0, CreatedAt := 0, HNRank := some 1, Summary := none, Topics := [] }

def scC6Row : StoryRow :=
  { ID := 1, Title := "T", URL := "http://x", Score := 11, By := "",
    Descendants := 0, PostedAt := 0, CreatedAt := 0, HNRank := none,
    Summary := some "- s", Topics := [] }

def scC6Item : Item :=
  { ID := 1, Typ := "story", Title := "T", URL := "http://x", Score := 11,
    By := "", Descendants := 0, Time := 0, Kids := [], Deleted := false,
    Dead := false, Text := "" }

def scC2Resp : HttpResponse :=
  { Status := 200, XFrameOptions := "", CSP := "", ContentType := "text/html",
    Body := "<p>hi</p>" }

def scC2Deny : HttpResponse :=
  { Status := 200, XFrameOptions := "DENY", CSP := "", ContentType := "text/html",
    Body := "<p>x</p>" }

def scC2DenyResult : FetchResult :=
  { Content := "x", Title := "Unknown Title", CanIframe := false }

def scC6Fetch : Int → Option Item := fun i => if i == 1 then some scC6Item else none

def scC6Job : SummaryJob := { ID := 1, URL := "http://x", Title := "T" }

def scC2Readme : HttpResponse :=
  { Status := 200, XFrameOptions := "", CSP := "", ContentType := "text/plain",
    Body := "README body" }

/-- Observation: the effect of one batched rank UPDATE pass on a
single row — set the rank to the map's entry for the row's id, if
any. -/
def applyRank (pairs : List (Int × Int)) (r : StoryRow) : StoryRow :=
  match mapLookup pairs r.ID with
  | some v => { r with HNRank := some v }
  | none => r

/-- The rank-exclusivity invariant over the `stories` table: a rank is
set exactly for the ids of the current (truncated) top list, and a
set rank is the rank map's value for that id. -/
def rankInv (ids : List Int) (rows : List StoryRow) : Prop :=
  ∀ r ∈ rows, (r.HNRank ≠ none ↔ r.ID ∈ ids) ∧
    (∀ k, r.HNRank = some k → mapLookup (rankPairs ids) r.ID = some k)

def scRow5 : StoryRow :=
  { ID := 5, Title := "t5", URL := "", Score := 0, By := "", Descendants := 0,
    PostedAt := 0, CreatedAt := 0, HNRank := none, Summary := none, Topics := [] }

def scC3DB : DB := { stories := [scRow42, scRow5], comments := [], users := [] }

def scRow5After : StoryRow :=
  { ID := 5, Title := "t5", URL := "", Score := 0, By := "", Descendants := 0,
    PostedAt := 0, CreatedAt := 0, HNRank := some 1, Summary := none, Topics := [] }

/-! ## Helper lemmas -/

/-- A second upsert whose key already hits a row never takes the
insert arm; if the first upsert's insert row is a fixed point of the
update arm, the update arm preserves the key hit, and the update arm
is idempotent on hit rows, then the second upsert is the identity. -/
theorem upsertRow_second_eq {ρ : Type} (hit : ρ → Bool) (ins1 ins2 : ρ) (upd : ρ → ρ)
    (hins : hit ins1 = true) (hupdins : upd ins1 = ins1)
    (hhit : ∀ r, hit r = true → hit (upd r) = true)
    (hidem : ∀ r, hit r = true → upd (upd r) = upd r)
    (rows : List ρ) :
    upsertRow hit ins2 upd (upsertRow hit ins1 upd rows) = upsertRow hit ins1 upd rows := by
  have hff : ((fun r => if hit r then upd r else r) ∘ (fun r => if hit r then upd r else r)) =
      (fun r => if hit r then upd r else r) := by
    funext r
    by_cases hr : hit r = true
    · simp [hr, hhit r hr, hidem r hr]
    · simp [hr]
  unfold upsertRow
  by_cases h : rows.any hit = true
  · rw [if_pos h]
    have hany2 : (rows.map (fun r => if hit r then upd r else r)).any hit = true := by
      rcases List.any_eq_true.mp h with ⟨r, hr, hhitr⟩
      exact List.any_eq_true.mpr
        ⟨(fun r => if hit r then upd r else r) r, List.mem_map_of_mem _ hr,
          by simp [hhitr, hhit r hhitr]⟩
    rw [if_pos hany2, List.map_map, hff]
  · have hfalse : rows.any hit = false := by
      cases hx : rows.any hit with
      | false => rfl
      | true => exact absurd hx h
    rw [if_neg h]
    have hany2 : (rows ++ [ins1]).any hit = true := by simp [hins]
    rw [if_pos hany2, List.map_append]
    have hall : ∀ r ∈ rows, hit r = false := by
      intro r hr
      rcases List.any_eq_false.mp hfalse r hr with h'
      cases hx : hit r with
      | false => rfl
      | true => exact absurd hx h'
    have hcong : ∀ a ∈ rows,
        (fun r => if hit r then upd r else r) a = (fun a => a) a :=
      fun r hr => by simp [hall r hr]
    have h1 : rows.map (fun r => if hit r then upd r else r) = rows := by
      rw [List.map_congr_left hcong]
      exact List.map_id' rows
    have h2 : [ins1].map (fun r => if hit r then upd r else r) = [ins1] := by
      simp [hins, hupdins]
    rw [h1, h2]

/-- Searching through the update arm of an upsert: when the update
preserves the predicate, the first matching row afterwards is the
updated image of the first matching row before. -/
theorem find?_upsert_map {ρ : Type} (p hit : ρ → Bool) (upd : ρ → ρ)
    (hp : ∀ r, p (if hit r then upd r else r) = p r) :
    ∀ (rows : List ρ) (old : ρ), rows.find? p = some old →
      (rows.map (fun r => if hit r then upd r else r)).find? p =
        some (if hit old then upd old else old) := by
  intro rows
  induction rows with
  | nil => intro old h; simp at h
  | cons r t ih =>
    intro old h
    cases hr : p r with
    | true =>
      rw [List.find?_cons_of_pos _ hr] at h
      cases h
      simp only [List.map_cons]
      rw [List.find?_cons_of_pos _ (by rw [hp]; exact hr)]
    | false =>
      rw [List.find?_cons_of_neg _ (by simp [hr])] at h
      simp only [List.map_cons]
      rw [List.find?_cons_of_neg _ (by simp [hp, hr])]
      exact ih old h

/-! ## Claim theorems -/

/-- C7: applying `upsert_story`, `upsert_comment` or `upsert_user`
twice with identical input yields the same stored state as applying
it once.  SQL `NOW()` is the explicit `now` argument; the story and
comment upserts are idempotent even across different call times
(their conflict arms never touch `created_at`), while the user upsert
also stamps `updated_at = NOW()`, so its two applications carry the
same `now`. -/
theorem upserts_idempotent :
    (∀ (now1 now2 : Int) (s : StoryIn) (rows : List StoryRow),
      upsertStory now2 s (upsertStory now1 s rows) = upsertStory now1 s rows) ∧
    (∀ (now1 now2 : Int) (c : CommentIn) (rows : List CommentRow),
      upsertComment now2 c (upsertComment now1 c rows) = upsertComment now1 c rows) ∧
    (∀ (now : Int) (u : UserIn) (rows : List UserRow),
      upsertUser now u (upsertUser now u rows) = upsertUser now u rows) := by
  refine ⟨?_, ?_, ?_⟩
  · intro now1 now2 s rows
    exact upsertRow_second_eq _ _ _ _ (by simp [storyInsertRow]) rfl
      (fun r hr => by simpa [storyConflictUpdate] using hr)
      (fun r _ => by simp [storyConflictUpdate]) rows
  · intro now1 now2 c rows
    exact upsertRow_second_eq _ _ _ _ (by simp [commentInsertRow]) rfl
      (fun r hr => by simpa [commentConflictUpdate] using hr)
      (fun r _ => by simp [commentConflictUpdate]) rows
  · intro now u rows
    exact upsertRow_second_eq _ _ _ _ (by simp [userInsertRow]) rfl
      (fun r hr => by simpa [userConflictUpdate] using hr)
      (fun r _ => by simp [userConflictUpdate]) rows

/-- C10: an `upsert_comment` on an id that already exists overwrites
only `text` and `posted_at`; the stored `story_id`, `parent_id` and
author keep their original values even when the new input differs. -/
theorem upsertComment_preserves_immutable_fields
    (now : Int) (c : CommentIn) (rows : List CommentRow) (old : CommentRow)
    (hold : getComment rows c.ID = some old) :
    getComment (upsertComment now c rows) c.ID =
      some { old with Text := c.Text, PostedAt := c.PostedAt } := by
  have hold' : rows.find? (fun r => r.ID == c.ID) = some old := hold
  have hmem : old ∈ rows := List.mem_of_find?_eq_some hold'
  have hpold0 := List.find?_some hold'
  have hpold : (old.ID == c.ID) = true := by simpa using hpold0
  have hany : rows.any (fun r => r.ID == c.ID) = true :=
    List.any_eq_true.mpr ⟨old, hmem, hpold⟩
  have hfind := find?_upsert_map (fun r => r.ID == c.ID) (fun r => r.ID == c.ID)
    (commentConflictUpdate c)
    (fun r => by by_cases h : (r.ID == c.ID) = true <;> simp [h, commentConflictUpdate])
    rows old hold'
  show (upsertRow (fun r => r.ID == c.ID) (commentInsertRow now c)
      (commentConflictUpdate c) rows).find? (fun r => r.ID == c.ID) = _
  unfold upsertRow
  rw [if_pos hany, hfind]
  simp [hpold, commentConflictUpdate]

/-- C10 witness: a concrete second upsert with different
`story_id`/`parent_id`/author leaves those stored fields unchanged. -/
theorem upsertComment_preserves_immutable_fields_witness :
    getComment
        (upsertComment 7
          { ID := 1, StoryID := 99, ParentID := some 5, Text := "t2", By := "v",
            PostedAt := 50 }
          [{ ID := 1, StoryID := 10, ParentID := none, Text := "t", By := "u",
             PostedAt := 40, CreatedAt := 0 }]) 1 =
      some { ID := 1, StoryID := 10, ParentID := none, Text := "t2", By := "u",
             PostedAt := 50, CreatedAt := 0 } := by
  exact upsertComment_preserves_immutable_fields 7
    { ID := 1, StoryID := 99, ParentID := some 5, Text := "t2", By := "v",
      PostedAt := 50 }
    [{ ID := 1, StoryID := 10, ParentID := none, Text := "t", By := "u",
       PostedAt := 40, CreatedAt := 0 }]
    { ID := 1, StoryID := 10, ParentID := none, Text := "t", By := "u",
      PostedAt := 40, CreatedAt := 0 }
    (by decide)

/-- C9: `clear_ranks_not_in` with an empty id list performs no write
and succeeds, and an ingestion cycle whose top-ID fetch yields the
empty list leaves every surviving story row — its rank included —
exactly as it was stored before the cycle. -/
theorem clearRanksNotIn_empty_noop :
    (∀ rows : List StoryRow, clearRanksNotIn [] rows = rows) ∧
    (∀ (fetch : Int → Option Item) (userFetch : String → Option UserIn)
        (now : Int) (fuel : Nat) (isProt : Int → Bool) (db : DB)
        (q : List SummaryJob) (r : StoryRow),
      r ∈ ((runIngestionP8 fetch userFetch now fuel isProt [] db q).1).stories →
      r ∈ db.stories) := by
  constructor
  · intro rows; simp [clearRanksNotIn]
  · intro fetch userFetch now fuel isProt db q r hr
    simp only [runIngestionP8, List.take_nil, clearRanksNotIn, List.isEmpty_nil,
      if_true, rankPairs, rankPairsFrom, updateRanks, List.foldl_nil] at hr
    exact List.mem_of_mem_filter hr

/-- C9 witness: a ranked story survives an empty-top-list cycle with
its rank intact. -/
theorem clearRanksNotIn_empty_noop_witness :
    clearRanksNotIn [] [scRow42] = [scRow42] ∧
      scRow42 ∈ (({ stories := [scRow42], comments := [], users := [] } : DB)).stories := by
  refine ⟨clearRanksNotIn_empty_noop.1 [scRow42], ?_⟩
  exact clearRanksNotIn_empty_noop.2 (fun _ => none) (fun _ => none) 0 0
    (fun _ => false) { stories := [scRow42], comments := [], users := [] } [] scRow42
    (by decide)

/-- C8: the AI call retries on any failure up to 3 attempts with
backoff doubling from 2 seconds, returns the first success
immediately, wraps the last failure after the final attempt (after
one last backoff wait), and aborts with the cancellation error when
the context is cancelled during a backoff wait. -/
theorem generateWithRetry_behavior (call : Nat → Except String String)
    (cancelled : Nat → Bool) :
    (∀ s, call 0 = Except.ok s →
      generateWithRetry call cancelled = (RetryResult.success s, [])) ∧
    (∀ e s, call 0 = Except.error e → cancelled 0 = false → call 1 = Except.ok s →
      generateWithRetry call cancelled = (RetryResult.success s, [2000])) ∧
    (∀ e1 e2 s, call 0 = Except.error e1 → call 1 = Except.error e2 →
      cancelled 0 = false → cancelled 1 = false → call 2 = Except.ok s →
      generateWithRetry call cancelled = (RetryResult.success s, [2000, 4000])) ∧
    (∀ e1 e2 e3, call 0 = Except.error e1 → call 1 = Except.error e2 →
      call 2 = Except.error e3 → cancelled 0 = false → cancelled 1 = false →
      cancelled 2 = false →
      generateWithRetry call cancelled =
        (RetryResult.failedAfterRetries e3, [2000, 4000, 8000])) ∧
    (∀ e, call 0 = Except.error e → cancelled 0 = true →
      generateWithRetry call cancelled = (RetryResult.ctxCancelled, [])) ∧
    (∀ e1 e2, call 0 = Except.error e1 → cancelled 0 = false →
      call 1 = Except.error e2 → cancelled 1 = true →
      generateWithRetry call cancelled = (RetryResult.ctxCancelled, [2000])) ∧
    (∀ e1 e2 e3, call 0 = Except.error e1 → cancelled 0 = false →
      call 1 = Except.error e2 → cancelled 1 = false →
      call 2 = Except.error e3 → cancelled 2 = true →
      generateWithRetry call cancelled = (RetryResult.ctxCancelled, [2000, 4000])) := by
  refine ⟨?_, ?_, ?_, ?_, ?_, ?_, ?_⟩ <;>
    intros <;>
    simp_all [generateWithRetry, retryAux]

/-- C8 witness: with a backend that always fails and a context that is
never cancelled, the loop makes 3 attempts, waits 2s, 4s and 8s, and
returns the wrapped last error. -/
theorem generateWithRetry_behavior_witness :
    generateWithRetry (fun _ => Except.error "boom") (fun _ => false) =
      (RetryResult.failedAfterRetries "boom", [2000, 4000, 8000]) :=
  (generateWithRetry_behavior (fun _ => Except.error "boom") (fun _ => false)).2.2.2.1
    "boom" "boom" "boom" rfl rfl rfl rfl rfl rfl

/-- C4: with top IDs `[5,3,9]` and new IDs `[9,7]`, the processing
order is exactly `[5,3,9,7]` (ranked first in ascending rank,
unranked after, truncated to the 200 ceiling) — and stays `[5,3,9,7]`
for every enumeration order of Go's deduplication map — and after the
cycle the stored ranks are 5→1, 3→2, 9→3 with story 7's rank null. -/
theorem discovery_scenario_ranks_and_order :
    ((sortIDs (cuLess (rankPairs [5, 3, 9])) (dedupFirst ([5, 3, 9] ++ [9, 7]))).take 200 =
      [5, 3, 9, 7]) ∧
    ((([5, 3, 9, 7] : List Int).permutations').all
      (fun l => sortIDs (cuLess (rankPairs [5, 3, 9])) l == [5, 3, 9, 7]) = true) ∧
    (((runIngestionCU scC4Fetch (fun _ => none) 0 0 (fun _ => false)
        [5, 3, 9] [9, 7] { stories := [], comments := [], users := [] } []).1).stories.map
          (fun r => (r.ID, r.HNRank)) =
      [(5, some 1), (3, some 2), (9, some 3), (7, none)]) := by
  refine ⟨by decide, by decide, by decide⟩

/-- C1: of the four AI response shapes, the plain string (a) and the
garbage (d) fall back to the raw text with no topics, and the flat
object (b) is bulleted with its topics — but the nested shape (c)
does *not* flatten like (b): decoding `[["x"]]` into the typed
`[]string` topics field makes the whole `json.Unmarshal` return an
error, so the code takes the raw-text fallback (summary = raw JSON
text, topics empty), contradicting `flattenStringArray`'s own stated
purpose of handling nested arrays like `[["string"]]`. -/
theorem parseSummaryResponse_four_shapes :
    parseSummaryResponse respPlainString = (respPlainString, []) ∧
    parseSummaryResponse respFlat = ("- a\n- b", ["x"]) ∧
    parseSummaryResponse respGarbage = (respGarbage, []) ∧
    parseSummaryResponse respNested = (respNested, []) ∧
    parseSummaryResponse respNested ≠ ("- a\n- b", ["x"]) := by
  refine ⟨by decide, by decide, by decide, by decide, by decide⟩

/-- C6 counterexample: a story whose lookup finds a *non-empty* stored
summary (with an empty topic list) is still enqueued — the code also
enqueues for the topics backfill, so "no non-empty stored summary" is
not a necessary condition for enqueueing. -/
theorem enqueue_despite_existing_summary :
    (processStoryP8 scC6Fetch (fun _ => none) 0 0 100 1 none
        ({ stories := [scC6Row], comments := [], users := [] }, [])).2 = [scC6Job] ∧
    getStory [scC6Row] 1 = some scC6Row ∧
    scC6Row.Summary = some "- s" ∧ ("- s" : String) ≠ "" := by
  refine ⟨by decide, by decide, by decide, by decide⟩

/-- C6 (amended): per processed story, at most one job is appended
and never by blocking; when the queue is full (`qcap ≤ q.length`) the
job is dropped and the queue is unchanged; and a job is enqueued only
for a fetched story with a non-empty URL and score above 10 whose
single lookup finds no record with both a non-empty summary and a
non-empty topic list (i.e. no summary yet, an empty summary, or the
topics backfill). -/
theorem summary_enqueue_conditions
    (fetch : Int → Option Item) (userFetch : String → Option UserIn)
    (now : Int) (fuel : Nat) (qcap : Nat) (id : Int) (rank : Option Int)
    (db : DB) (q : List SummaryJob) :
    ((processStoryP8 fetch userFetch now fuel qcap id rank (db, q)).2 = q ∨
      ∃ j, (processStoryP8 fetch userFetch now fuel qcap id rank (db, q)).2 = q ++ [j]) ∧
    (qcap ≤ q.length →
      (processStoryP8 fetch userFetch now fuel qcap id rank (db, q)).2 = q) ∧
    ((processStoryP8 fetch userFetch now fuel qcap id rank (db, q)).2 ≠ q →
      ∃ item, fetch id = some item ∧ item.Typ = "story" ∧ item.URL ≠ "" ∧
        item.Score > 10 ∧
        ∀ r, getStory (upsertStory now (storyInOf item rank) db.stories) id = some r →
          ¬∃ s, r.Summary = some s ∧ s ≠ "" ∧ r.Topics ≠ []) := by
  cases hf : fetch id with
  | none =>
    refine ⟨Or.inl ?_, fun _ => ?_, fun hne => ?_⟩
    · simp [processStoryP8, hf]
    · simp [processStoryP8, hf]
    · exact absurd (by simp [processStoryP8, hf]) hne
  | some item =>
    by_cases ht : item.Typ = "story"
    · have hq2 : (processStoryP8 fetch userFetch now fuel qcap id rank (db, q)).2 =
          (if wantsSummaryJob (upsertStory now (storyInOf item rank) db.stories) id item
           then (tryEnqueue qcap q { ID := id, URL := item.URL, Title := item.Title }).1
           else q) := by
        simp [processStoryP8, hf, ht]
      by_cases hw : wantsSummaryJob (upsertStory now (storyInOf item rank) db.stories)
          id item = true
      · rw [hw] at hq2
        simp only [if_true] at hq2
        refine ⟨?_, fun hfull => ?_, fun _ => ?_⟩
        · by_cases hlen : q.length < qcap
          · exact Or.inr ⟨{ ID := id, URL := item.URL, Title := item.Title },
              by rw [hq2]; simp [tryEnqueue, hlen]⟩
          · exact Or.inl (by rw [hq2]; simp [tryEnqueue, hlen])
        · rw [hq2]; simp [tryEnqueue, Nat.not_lt.mpr hfull]
        · refine ⟨item, ?_, ?_, ?_, ?_, ?_⟩
          · rfl
          · exact ht
          · have hw' := hw
            unfold wantsSummaryJob at hw'
            by_cases hu : item.URL = "" <;> simp [hu] at hw' ⊢
          · have hw' := hw
            unfold wantsSummaryJob at hw'
            by_cases hs : item.Score > 10
            · exact hs
            · simp [hs] at hw'
          · intro r hr hexists
            rcases hexists with ⟨s, hsum, hsne, htop⟩
            have hw' := hw
            unfold wantsSummaryJob at hw'
            rw [hr] at hw'
            simp [hsum, hsne, List.length_eq_zero] at hw'
            exact htop hw'.2
      · have hwf : wantsSummaryJob (upsertStory now (storyInOf item rank) db.stories)
            id item = false := by
          cases hx : wantsSummaryJob (upsertStory now (storyInOf item rank) db.stories)
              id item with
          | false => rfl
          | true => exact absurd hx hw
        rw [hwf] at hq2
        simp at hq2
        exact ⟨Or.inl hq2, fun _ => hq2, fun hne => absurd hq2 hne⟩
    · refine ⟨Or.inl ?_, fun _ => ?_, fun hne => ?_⟩
      · simp [processStoryP8, hf, ht]
      · simp [processStoryP8, hf, ht]
      · exact absurd (by simp [processStoryP8, hf, ht]) hne

/-- C6 witness: a full queue (100 pending jobs at capacity 100) drops
the job and leaves the queue unchanged. -/
theorem summary_enqueue_conditions_witness :
    (processStoryP8 scC6Fetch (fun _ => none) 0 0 100 1 none
        ({ stories := [scC6Row], comments := [], users := [] },
          List.replicate 100 scC6Job)).2 = List.replicate 100 scC6Job :=
  (summary_enqueue_conditions scC6Fetch (fun _ => none) 0 0 100 1 none
    { stories := [scC6Row], comments := [], users := [] }
    (List.replicate 100 scC6Job)).2.1 (by simp)

/-- The shared tail of the fetcher never blocks the can-embed flag on
the extraction outcome: it is false exactly on a successful long-PDF
extraction and the header classification otherwise. -/
theorem htmlExtract_canEmbed (resp : HttpResponse)
    (readab : String → Option (String × String)) :
    (htmlExtract resp readab).CanIframe = canEmbedOf resp := by
  unfold htmlExtract
  cases hx : readab (String.mk (resp.Body.data.take (2 * 1024 * 1024))) with
  | none => simp [hx]
  | some pair =>
    cases pair with
    | mk title text =>
      by_cases htxt : text = "" <;> simp [hx, htxt]

theorem pdfAttempt_some (urlStr : String) (resp : HttpResponse)
    (pdfExtract : String → Option String) (r : FetchResult)
    (h : pdfAttempt urlStr resp pdfExtract = some r) :
    r.CanIframe = false ∧ pdfHit urlStr resp pdfExtract = true := by
  unfold pdfAttempt at h
  unfold pdfHit
  by_cases hp : isPDFReq urlStr resp = true
  · rw [hp] at h
    simp only [if_true] at h
    cases hx : pdfExtract resp.Body with
    | none => rw [hx] at h; cases h
    | some content =>
      rw [hx] at h
      by_cases hl : content.length > 100
      · simp only [hl, if_true] at h
        cases h
        simp [hp, hx, hl]
      · simp only [hl, if_false] at h
        cases h
  · have hpf : isPDFReq urlStr resp = false := by
      cases hz : isPDFReq urlStr resp with
      | false => rfl
      | true => exact absurd hz hp
    rw [hpf] at h
    simp at h

theorem pdfAttempt_none (urlStr : String) (resp : HttpResponse)
    (pdfExtract : String → Option String)
    (h : pdfAttempt urlStr resp pdfExtract = none) :
    pdfHit urlStr resp pdfExtract = false := by
  unfold pdfAttempt at h
  unfold pdfHit
  by_cases hp : isPDFReq urlStr resp = true
  · rw [hp] at h
    simp only [if_true] at h
    cases hx : pdfExtract resp.Body with
    | none => simp [hp, hx]
    | some content =>
      rw [hx] at h
      by_cases hl : content.length > 100
      · simp only [hl, if_true] at h; cases h
      · simp [hp, hx, hl]
  · have hpf : isPDFReq urlStr resp = false := by
      cases hz : isPDFReq urlStr resp with
      | false => rfl
      | true => exact absurd hz hp
    simp [hpf]

/-- The shared fetcher tail: the can-embed flag is false exactly on a
successful long-PDF extraction and header-derived otherwise,
independent of the extraction outcome. -/
theorem fetchArticleTail_canEmbed (urlStr : String) (resp : HttpResponse)
    (pdfExtract : String → Option String)
    (readab : String → Option (String × String)) (r : FetchResult)
    (h : fetchArticleTail urlStr (some resp) pdfExtract readab = some r) :
    r.CanIframe = (!(pdfHit urlStr resp pdfExtract) && canEmbedOf resp) := by
  simp only [fetchArticleTail] at h
  cases hpa : pdfAttempt urlStr resp pdfExtract with
  | some r0 =>
    rw [hpa] at h
    injection h with h'
    subst h'
    rcases pdfAttempt_some urlStr resp pdfExtract r0 hpa with ⟨hci, hph⟩
    rw [hci, hph]
    rfl
  | none =>
    rw [hpa] at h
    injection h with h'
    subst h'
    rw [htmlExtract_canEmbed, pdfAttempt_none urlStr resp pdfExtract hpa]
    rfl

/-- C2 counterexample: for a repository-root URL whose original
response carries no framing-denial header (so the claim demands
`can_embed = true`), a successful raw-README fetch returns the README
content with `can_embed` hard-coded to false — not computed from the
original response's headers. -/
theorem fetchArticle_readme_ignores_original_headers :
    fetchArticle "https://github.com/foo/bar" scC2Resp
        (fun u =>
          if u == "https://raw.githubusercontent.com/foo/bar/master/README.md"
          then some scC2Readme else none)
        (fun _ => none) (fun _ => none) =
      some { Content := "README body", Title := "GitHub README: foo/bar",
             CanIframe := false } ∧
    canEmbedOf scC2Resp = true := by
  refine ⟨by decide, by decide⟩

/-- C2 (amended): `can_embed` is header-derived only on the general
HTML path — for a non-repository URL it equals the header
classification of the original response unless a long PDF extraction
succeeds, in which case it is false; a raw-README return carries
`can_embed = false` unconditionally; and when both README attempts
fall through, the headers consulted are those of the *last raw-README
response* (which also replaced the original), not the original
response's; if that last attempt was a transport error the function
never returns successfully. -/
theorem fetchArticle_canEmbed_characterization
    (urlStr : String) (resp0 : HttpResponse)
    (githubRaw : String → Option HttpResponse)
    (pdfExtract : String → Option String)
    (readab : String → Option (String × String)) :
    (isRepoRoot urlStr = false →
      ∀ r, fetchArticle urlStr resp0 githubRaw pdfExtract readab = some r →
        r.CanIframe = (!(pdfHit urlStr resp0 pdfExtract) && canEmbedOf resp0)) ∧
    (isRepoRoot urlStr = true →
      (∀ rm, githubRaw (rawReadmeURL urlStr "master") = some rm → rm.Status = 200 →
        ∀ r, fetchArticle urlStr resp0 githubRaw pdfExtract readab = some r →
          r.CanIframe = false) ∧
      (∀ rmain, (∀ rm, githubRaw (rawReadmeURL urlStr "master") = some rm →
          rm.Status ≠ 200) →
        githubRaw (rawReadmeURL urlStr "main") = some rmain → rmain.Status = 200 →
        ∀ r, fetchArticle urlStr resp0 githubRaw pdfExtract readab = some r →
          r.CanIframe = false) ∧
      (∀ rmain, (∀ rm, githubRaw (rawReadmeURL urlStr "master") = some rm →
          rm.Status ≠ 200) →
        githubRaw (rawReadmeURL urlStr "main") = some rmain → rmain.Status ≠ 200 →
        ∀ r, fetchArticle urlStr resp0 githubRaw pdfExtract readab = some r →
          r.CanIframe = (!(pdfHit urlStr rmain pdfExtract) && canEmbedOf rmain)) ∧
      ((∀ rm, githubRaw (rawReadmeURL urlStr "master") = some rm → rm.Status ≠ 200) →
        githubRaw (rawReadmeURL urlStr "main") = none →
        fetchArticle urlStr resp0 githubRaw pdfExtract readab = none)) := by
  constructor
  · intro hroot r h
    unfold fetchArticle at h
    rw [hroot] at h
    simp only [Bool.false_eq_true, if_false] at h
    exact fetchArticleTail_canEmbed urlStr resp0 pdfExtract readab r h
  · intro hroot
    have hunf : fetchArticle urlStr resp0 githubRaw pdfExtract readab =
        (let parts := goSplitChar (goTrimSlashes (urlPath urlStr)) '/'
         let p0 := parts.headD ""
         let p1 := (parts.drop 1).headD ""
         let readme := fun (resp : HttpResponse) =>
           some { Content := resp.Body,
                  Title := "GitHub README: " ++ p0 ++ "/" ++ p1,
                  CanIframe := false }
         match githubRaw (rawReadmeURL urlStr "master") with
         | some resp =>
           if resp.Status == 200 then readme resp
           else
             match githubRaw (rawReadmeURL urlStr "main") with
             | some r2 =>
               if r2.Status == 200 then readme r2
               else fetchArticleTail urlStr (some r2) pdfExtract readab
             | none => fetchArticleTail urlStr none pdfExtract readab
         | none =>
           match githubRaw (rawReadmeURL urlStr "main") with
           | some r2 =>
             if r2.Status == 200 then readme r2
             else fetchArticleTail urlStr (some r2) pdfExtract readab
           | none => fetchArticleTail urlStr none pdfExtract readab) := by
      unfold fetchArticle
      rw [hroot]
      simp only [if_true]
    refine ⟨?_, ?_, ?_, ?_⟩
    · intro rm hrm h200 r h
      rw [hunf, hrm] at h
      simp only [h200, beq_self_eq_true, if_true] at h
      injection h with h'
      subst h'
      rfl
    · intro rmain hms hmain h200 r h
      rw [hunf] at h
      cases hm : githubRaw (rawReadmeURL urlStr "master") with
      | some rm =>
        have hst : (rm.Status == 200) = false := by
          simpa using hms rm hm
        rw [hm] at h
        simp only [hst, Bool.false_eq_true, if_false, hmain, h200,
          beq_self_eq_true, if_true] at h
        injection h with h'
        subst h'
        rfl
      | none =>
        rw [hm] at h
        simp only [hmain, h200, beq_self_eq_true, if_true] at h
        injection h with h'
        subst h'
        rfl
    · intro rmain hms hmain h200 r h
      have hbeq : (rmain.Status == 200) = false := by simpa using h200
      rw [hunf] at h
      cases hm : githubRaw (rawReadmeURL urlStr "master") with
      | some rm =>
        have hst : (rm.Status == 200) = false := by simpa using hms rm hm
        rw [hm] at h
        simp only [hst, Bool.false_eq_true, if_false, hmain, hbeq] at h
        exact fetchArticleTail_canEmbed urlStr rmain pdfExtract readab r h
      | none =>
        rw [hm] at h
        simp only [hmain, hbeq, Bool.false_eq_true, if_false] at h
        exact fetchArticleTail_canEmbed urlStr rmain pdfExtract readab r h
    · intro hms hmain
      rw [hunf]
      cases hm : githubRaw (rawReadmeURL urlStr "master") with
      | some rm =>
        have hst : (rm.Status == 200) = false := by simpa using hms rm hm
        simp only [hst, Bool.false_eq_true, if_false, hmain]
        rfl
      | none =>
        simp only [hmain]
        rfl

/-- C2 witness: a non-repository, non-PDF URL whose response carries
X-Frame-Options DENY embeds as `can_embed = false`, the header
classification of the original response. -/
theorem fetchArticle_canEmbed_characterization_witness :
    fetchArticle "https://example.com/a" scC2Deny (fun _ => none) (fun _ => none)
        (fun _ => none) = some scC2DenyResult ∧
    scC2DenyResult.CanIframe =
      (!(pdfHit "https://example.com/a" scC2Deny (fun _ => none)) &&
        canEmbedOf scC2Deny) := by
  refine ⟨by decide, ?_⟩
  exact (fetchArticle_canEmbed_characterization "https://example.com/a" scC2Deny
    (fun _ => none) (fun _ => none) (fun _ => none)).1 (by decide) scC2DenyResult
    (by decide)

/-- Folding the last-wins map lookup from any accumulator. -/
theorem mapLookup_foldl (ps : List (Int × Int)) (k : Int) :
    ∀ acc : Option Int,
      ps.foldl (fun a q => if q.1 == k then some q.2 else a) acc =
        (match mapLookup ps k with
         | some v => some v
         | none => acc) := by
  induction ps with
  | nil => intro acc; rfl
  | cons q t ih =>
    intro acc
    show t.foldl _ (if q.1 == k then some q.2 else acc) = _
    rw [ih]
    have hq : mapLookup (q :: t) k =
        t.foldl (fun a q' => if q'.1 == k then some q'.2 else a)
          (if q.1 == k then some q.2 else none) := rfl
    rw [hq, ih]
    cases h : mapLookup t k with
    | some v => rfl
    | none => by_cases hqk : (q.1 == k) = true <;> simp [hqk]

/-- Last-wins map lookup on a cons cell. -/
theorem mapLookup_cons (p : Int × Int) (ps : List (Int × Int)) (k : Int) :
    mapLookup (p :: ps) k =
      (match mapLookup ps k with
       | some v => some v
       | none => if p.1 == k then some p.2 else none) :=
  mapLookup_foldl ps k (if p.1 == k then some p.2 else none)

/-- A batch of single-row rank UPDATE statements acts on the table
like the per-row `applyRank`. -/
theorem updateRanks_eq_map (pairs : List (Int × Int)) :
    ∀ rows : List StoryRow, updateRanks pairs rows = rows.map (applyRank pairs) := by
  induction pairs with
  | nil =>
    intro rows
    have h : ∀ r ∈ rows, applyRank [] r = (fun r => r) r := fun r _ => rfl
    show rows = _
    rw [List.map_congr_left h]
    exact (List.map_id' rows).symm
  | cons p t ih =>
    intro rows
    show updateRanks t _ = _
    rw [ih, List.map_map]
    apply List.map_congr_left
    intro r _
    show applyRank t (if r.ID == p.1 then { r with HNRank := some p.2 } else r) =
      applyRank (p :: t) r
    have hid : (if r.ID == p.1 then { r with HNRank := some p.2 } else r).ID = r.ID := by
      by_cases h : (r.ID == p.1) = true <;> simp [h]
    unfold applyRank
    rw [hid, mapLookup_cons]
    cases h : mapLookup t r.ID with
    | some v => by_cases hg : (r.ID == p.1) = true <;> simp [hg]
    | none =>
      by_cases hg : (p.1 == r.ID) = true
      · have hg' : (r.ID == p.1) = true := by
          rw [beq_iff_eq] at hg ⊢; omega
        simp [hg, hg']
      · have hne2 : p.1 ≠ r.ID := by simpa using hg
        have hg2 : (p.1 == r.ID) = false := beq_eq_false_iff_ne.mpr hne2
        have hg' : (r.ID == p.1) = false :=
          beq_eq_false_iff_ne.mpr (fun hx => hne2 hx.symm)
        simp [hg2, hg']

/-- Lookup in the rank map fails exactly for ids outside the list. -/
theorem mapLookup_rankPairsFrom_eq_none (ids : List Int) :
    ∀ (n k : Int), mapLookup (rankPairsFrom n ids) k = none ↔ k ∉ ids := by
  induction ids with
  | nil => intro n k; simp [rankPairsFrom, mapLookup]
  | cons id rest ih =>
    intro n k
    have hunf : rankPairsFrom n (id :: rest) =
        (id, n + 1) :: rankPairsFrom (n + 1) rest := rfl
    rw [hunf, mapLookup_cons]
    cases h : mapLookup (rankPairsFrom (n + 1) rest) k with
    | some v =>
      have hk : k ∈ rest := by
        by_contra hk
        rw [← ih (n + 1) k] at hk
        rw [h] at hk
        cases hk
      simp [hk]
    | none =>
      have hk : k ∉ rest := (ih (n + 1) k).mp h
      by_cases hq : (id == k) = true
      · rw [beq_iff_eq] at hq
        simp [hq]
      · have hne : id ≠ k := by simpa using hq
        simp [beq_iff_eq, hne, hk, Ne.symm hne]

/-- On a duplicate-free list the rank map sends the id at 0-based
position `i` to `n + i + 1`. -/
theorem mapLookup_rankPairsFrom_nodup (ids : List Int) :
    ∀ (n k : Int), ids.Nodup → k ∈ ids →
      mapLookup (rankPairsFrom n ids) k = some (n + (ids.indexOf k : Int) + 1) := by
  induction ids with
  | nil => intro n k _ hk; cases hk
  | cons id rest ih =>
    intro n k hnd hk
    have hunf : rankPairsFrom n (id :: rest) =
        (id, n + 1) :: rankPairsFrom (n + 1) rest := rfl
    rw [hunf, mapLookup_cons]
    rcases List.nodup_cons.mp hnd with ⟨hhead, htail⟩
    rcases List.mem_cons.mp hk with hkid | hkr
    · subst hkid
      have hnone : mapLookup (rankPairsFrom (n + 1) rest) k = none :=
        (mapLookup_rankPairsFrom_eq_none rest (n + 1) k).mpr hhead
      rw [hnone]
      simp [List.indexOf_cons_self]
    · have hne : id ≠ k := fun hx => hhead (hx ▸ hkr)
      have hsome := ih (n + 1) k htail hkr
      rw [hsome]
      have hidx : (id :: rest).indexOf k = rest.indexOf k + 1 :=
        List.indexOf_cons_ne rest hne
      rw [hidx]
      push_cast
      ring_nf

/-- Rows produced by an upsert: the insert row, an updated hit row, or
an untouched original row. -/
theorem mem_upsertRow {ρ : Type} {hit : ρ → Bool} {ins : ρ} {upd : ρ → ρ}
    {rows : List ρ} {r' : ρ} (h : r' ∈ upsertRow hit ins upd rows) :
    r' = ins ∨ ∃ r, r ∈ rows ∧ ((hit r = true ∧ r' = upd r) ∨ r' = r) := by
  unfold upsertRow at h
  by_cases ha : rows.any hit = true
  · rw [if_pos ha] at h
    rcases List.mem_map.mp h with ⟨r, hr, heq⟩
    right
    refine ⟨r, hr, ?_⟩
    by_cases hh : hit r = true
    · exact Or.inl ⟨hh, by rw [← heq]; simp [hh]⟩
    · have hh' : hit r = false := by
        cases hx : hit r with
        | false => rfl
        | true => exact absurd hx hh
      exact Or.inr (by rw [← heq]; simp [hh'])
  · rw [if_neg ha] at h
    rcases List.mem_append.mp h with hr | hr
    · exact Or.inr ⟨r', hr, Or.inr rfl⟩
    · exact Or.inl (by simpa using hr)

/-- The comment walk only writes the `comments` and `users` tables;
the `stories` table is untouched at any fuel. -/
theorem processComments_stories (fetch : Int → Option Item)
    (userFetch : String → Option UserIn) (now : Int) :
    ∀ (fuel : Nat) (kids : List Int) (sid : Int) (pid : Option Int) (db : DB),
      (processComments fetch userFetch now fuel kids sid pid db).stories = db.stories := by
  intro fuel
  induction fuel with
  | zero => intro kids sid pid db; rfl
  | succ n ih =>
    intro kids sid pid db
    cases kids with
    | nil => rfl
    | cons kid rest =>
      show (processComments fetch userFetch now n rest sid pid _).stories = _
      rw [ih]
      cases hf : fetch kid with
      | none => rfl
      | some item =>
        by_cases hskip : (item.Typ ≠ "comment" || item.Deleted || item.Dead) = true
        · have hskipP : (¬item.Typ = "comment" ∨ item.Deleted = true) ∨ item.Dead = true := by
            simpa [or_assoc] using hskip
          simp [hskipP]
        · have hskip' : (item.Typ ≠ "comment" || item.Deleted || item.Dead) = false := by
            cases hx : (item.Typ ≠ "comment" || item.Deleted || item.Dead) with
            | false => rfl
            | true => exact absurd hx hskip
          simp only [hskip', Bool.false_eq_true, if_false]
          by_cases hby : item.By ≠ ""
          · by_cases hkids : item.Kids.isEmpty = true <;> simp [hby, hkids, ih]
          · by_cases hkids : item.Kids.isEmpty = true <;> simp [hby, hkids, ih]

/-- The story worker's effect on the `stories` table: exactly the
upsert of the fetched story (or nothing). -/
theorem processStoryP8_stories (fetch : Int → Option Item)
    (userFetch : String → Option UserIn) (now : Int) (fuel qcap : Nat)
    (id : Int) (rank : Option Int) (st : DB × List SummaryJob) :
    (processStoryP8 fetch userFetch now fuel qcap id rank st).1.stories =
      (match fetch id with
       | none => st.1.stories
       | some item =>
         if item.Typ ≠ "story" then st.1.stories
         else upsertStory now (storyInOf item rank) st.1.stories) := by
  cases hf : fetch id with
  | none => simp [processStoryP8, hf]
  | some item =>
    by_cases ht : item.Typ = "story"
    · have ht' : (item.Typ ≠ "story") = False := by simp [ht]
      simp only [processStoryP8, hf, ht', if_false]
      by_cases hby : item.By ≠ "" <;>
        by_cases hkids : item.Kids.isEmpty = true <;>
          simp [hby, hkids, processComments_stories]
    · simp [processStoryP8, hf, ht]

/-- Lookup in the rank map read as `rankPairs`. -/
theorem mapLookup_rankPairs_eq_none (ids : List Int) (k : Int) :
    mapLookup (rankPairs ids) k = none ↔ k ∉ ids :=
  mapLookup_rankPairsFrom_eq_none ids 0 k

/-- On a duplicate-free top list the rank map value is the 1-based
position. -/
theorem mapLookup_rankPairs_nodup (ids : List Int) (k : Int)
    (h1 : ids.Nodup) (h2 : k ∈ ids) :
    mapLookup (rankPairs ids) k = some ((ids.indexOf k : Int) + 1) := by
  have h := mapLookup_rankPairsFrom_nodup ids 0 k h1 h2
  rw [rankPairs, h]
  ring_nf

/-- A row surviving the stale-rank clear (against a non-empty id
list) whose id is outside the list has a null rank. -/
theorem clearRanksNotIn_rank_none (ids : List Int) (rows : List StoryRow)
    (hne : ids ≠ []) {rc : StoryRow} (hrc : rc ∈ clearRanksNotIn ids rows)
    (hout : rc.ID ∉ ids) : rc.HNRank = none := by
  unfold clearRanksNotIn at hrc
  rw [if_neg (by simpa using hne)] at hrc
  rcases List.mem_map.mp hrc with ⟨r0, _, heq0⟩
  by_cases hcond : (r0.HNRank.isSome && !(ids.contains r0.ID)) = true
  · rw [if_pos hcond] at heq0
    rw [← heq0]
  · rw [if_neg hcond] at heq0
    subst heq0
    have hcont : ids.contains r0.ID = false := by
      cases hx : ids.contains r0.ID with
      | false => rfl
      | true => exact absurd (by simpa using hx) hout
    have hsome : r0.HNRank.isSome = false := by
      cases hx : r0.HNRank.isSome with
      | false => rfl
      | true => exact absurd (by rw [hx, hcont]; rfl) hcond
    exact Option.not_isSome_iff_eq_none.mp (by simp [hsome])

/-- Establishing the rank invariant: after the stale-rank clear (with
a non-empty id list) and the bulk rank update, ranks are set exactly
for the listed ids, at the rank map's values. -/
theorem rankInv_after_update (ids : List Int) (rows : List StoryRow)
    (hne : ids ≠ []) :
    rankInv ids (updateRanks (rankPairs ids) (clearRanksNotIn ids rows)) := by
  intro r' hr'
  rw [updateRanks_eq_map] at hr'
  rcases List.mem_map.mp hr' with ⟨rc, hrc, heq⟩
  subst heq
  by_cases hin : rc.ID ∈ ids
  · cases hl : mapLookup (rankPairs ids) rc.ID with
    | none => exact absurd hin ((mapLookup_rankPairs_eq_none ids rc.ID).mp hl)
    | some v =>
      unfold applyRank
      rw [hl]
      refine ⟨by simp [hin], ?_⟩
      intro k hk
      simp only [Option.some.injEq] at hk
      rw [hl, hk]
  · have hrank : rc.HNRank = none := clearRanksNotIn_rank_none ids rows hne hrc hin
    have hl : mapLookup (rankPairs ids) rc.ID = none :=
      (mapLookup_rankPairs_eq_none ids rc.ID).mpr hin
    unfold applyRank
    rw [hl]
    refine ⟨by simp [hrank, hin], ?_⟩
    intro k hk
    rw [hrank] at hk
    cases hk

/-- Preserving the rank invariant: a story worker processing an id of
the current top list (with the rank-map rank the driver hands it)
keeps ranks exact. -/
theorem rankInv_processStory (fetch : Int → Option Item)
    (userFetch : String → Option UserIn) (now : Int) (fuel qcap : Nat)
    (ids : List Int) (id : Int)
    (hfetch : ∀ i item, fetch i = some item → item.ID = i)
    (hid : id ∈ ids) (st : DB × List SummaryJob)
    (hinv : rankInv ids st.1.stories) :
    rankInv ids (processStoryP8 fetch userFetch now fuel qcap id
      (some ((mapLookup (rankPairs ids) id).getD 0)) st).1.stories := by
  have hchar := processStoryP8_stories fetch userFetch now fuel qcap id
    (some ((mapLookup (rankPairs ids) id).getD 0)) st
  cases hf : fetch id with
  | none => rw [hchar, hf]; exact hinv
  | some item =>
    rw [hchar, hf]
    show rankInv ids
      (if item.Typ ≠ "story" then st.1.stories
       else upsertStory now
         (storyInOf item (some ((mapLookup (rankPairs ids) id).getD 0))) st.1.stories)
    by_cases ht : item.Typ ≠ "story"
    · rw [if_pos ht]; exact hinv
    · rw [if_neg ht]
      have hitem : item.ID = id := hfetch id item hf
      obtain ⟨v, hv⟩ : ∃ v, mapLookup (rankPairs ids) id = some v := by
        cases hl : mapLookup (rankPairs ids) id with
        | none => exact absurd hid ((mapLookup_rankPairs_eq_none ids id).mp hl)
        | some v => exact ⟨v, rfl⟩
      intro r' hr'
      rcases mem_upsertRow hr' with hins | ⟨r, hr, hcase⟩
      · subst hins
        constructor
        · simp [storyInsertRow, storyInOf, hitem, hid]
        · intro k hk
          simp only [storyInsertRow, storyInOf] at hk ⊢
          rw [hitem, hv]
          rw [hv] at hk
          simpa using hk
      · rcases hcase with ⟨hhit, hupd⟩ | hsame
        · subst hupd
          have hrid : r.ID = id := by
            have := beq_iff_eq.mp hhit
            simpa [storyInOf, hitem] using this
          constructor
          · simp [storyConflictUpdate, storyInOf, hrid, hid]
          · intro k hk
            simp only [storyConflictUpdate, storyInOf] at hk ⊢
            rw [hrid, hv]
            rw [hv] at hk
            simpa using hk
        · subst hsame
          exact hinv _ hr

/-- The worker fold over ids of the top list preserves the rank
invariant. -/
theorem rankInv_fold (fetch : Int → Option Item)
    (userFetch : String → Option UserIn) (now : Int) (fuel qcap : Nat)
    (ids : List Int) (hfetch : ∀ i item, fetch i = some item → item.ID = i) :
    ∀ (l : List Int), (∀ i ∈ l, i ∈ ids) → ∀ (st : DB × List SummaryJob),
      rankInv ids st.1.stories →
      rankInv ids ((l.foldl (fun st i => processStoryP8 fetch userFetch now fuel qcap i
        (some ((mapLookup (rankPairs ids) i).getD 0)) st) st).1.stories) := by
  intro l
  induction l with
  | nil => intro _ st hinv; exact hinv
  | cons i t ih =>
    intro hsub st hinv
    simp only [List.foldl_cons]
    exact ih (fun j hj => hsub j (List.mem_cons_of_mem _ hj)) _
      (rankInv_processStory fetch userFetch now fuel qcap ids i hfetch
        (hsub i (List.mem_cons_self _ _)) st hinv)

/-- C3 counterexample: a cycle whose top-ID fetch yields the empty
list does not clear previously set ranks, so a persisted story keeps
a non-null rank although its id is in no top list — the claimed
iff fails. -/
theorem rank_exclusivity_counterexample :
    scRow42 ∈ ((runIngestionP8 (fun _ => none) (fun _ => none) 0 0 (fun _ => false)
        [] { stories := [scRow42], comments := [], users := [] } []).1).stories ∧
    scRow42.HNRank = some 1 ∧ scRow42.ID ∉ ([] : List Int) := by
  refine ⟨by decide, by decide, by simp⟩

/-- C3 (amended): after a cycle whose fetched top-ID list is
non-empty, every persisted story's rank is non-null iff its id is
among the first 20 fetched top IDs (the `TotalStories` truncation),
and — when that truncated list is duplicate-free — a set rank equals
the id's 1-based position in it. -/
theorem rank_exclusivity_after_cycle
    (fetch : Int → Option Item) (userFetch : String → Option UserIn)
    (now : Int) (fuel : Nat) (isProt : Int → Bool) (topIDsFetched : List Int)
    (db : DB) (q : List SummaryJob)
    (hfetch : ∀ i item, fetch i = some item → item.ID = i)
    (hne : topIDsFetched ≠ []) :
    ∀ r ∈ ((runIngestionP8 fetch userFetch now fuel isProt topIDsFetched db q).1).stories,
      (r.HNRank ≠ none ↔ r.ID ∈ topIDsFetched.take 20) ∧
      (∀ k, r.HNRank = some k → (topIDsFetched.take 20).Nodup →
        k = ((topIDsFetched.take 20).indexOf r.ID : Int) + 1) := by
  intro r hr
  have htake : topIDsFetched.take 20 ≠ [] := by
    intro hx
    rcases List.take_eq_nil_iff.mp hx with h20 | hl
    · cases h20
    · exact hne hl
  have hr' : r ∈ pruneStories 20 isProt
      (((topIDsFetched.take 20).foldl
        (fun st i => processStoryP8 fetch userFetch now fuel 100 i
          (some ((mapLookup (rankPairs (topIDsFetched.take 20)) i).getD 0)) st)
        ({ db with
            stories := updateRanks (rankPairs (topIDsFetched.take 20))
              (clearRanksNotIn (topIDsFetched.take 20) db.stories) }, q)).1.stories) := by
    simpa [runIngestionP8] using hr
  have hmem2 := List.mem_of_mem_filter hr'
  have hinv0 : rankInv (topIDsFetched.take 20)
      (updateRanks (rankPairs (topIDsFetched.take 20))
        (clearRanksNotIn (topIDsFetched.take 20) db.stories)) :=
    rankInv_after_update _ _ htake
  have hinvF := rankInv_fold fetch userFetch now fuel 100 (topIDsFetched.take 20)
    hfetch (topIDsFetched.take 20) (fun i hi => hi)
    ({ db with
        stories := updateRanks (rankPairs (topIDsFetched.take 20))
          (clearRanksNotIn (topIDsFetched.take 20) db.stories) }, q) hinv0
  obtain ⟨hiff, hval⟩ := hinvF r hmem2
  refine ⟨hiff, ?_⟩
  intro k hk hnodup
  have hidin : r.ID ∈ topIDsFetched.take 20 := hiff.mp (by simp [hk])
  have hlook := hval k hk
  rw [mapLookup_rankPairs_nodup (topIDsFetched.take 20) r.ID hnodup hidin] at hlook
  injection hlook with h'
  omega

/-- C3 witness: with top IDs `[5, 3]`, a stale rank on story 42 is
cleared and story 5 receives rank 1; the invariant instance for the
updated story-5 row follows from the cycle theorem. -/
theorem rank_exclusivity_after_cycle_witness :
    scRow5After ∈ ((runIngestionP8 (fun _ => none) (fun _ => none) 0 0 (fun _ => false)
        [5, 3] scC3DB []).1).stories ∧
    (scRow5After.HNRank ≠ none ↔ scRow5After.ID ∈ ([5, 3] : List Int).take 20) := by
  refine ⟨by decide, ?_⟩
  exact (rank_exclusivity_after_cycle (fun _ => none) (fun _ => none) 0 0
    (fun _ => false) [5, 3] scC3DB [] (fun i item h => by cases h)
    (by simp) scRow5After (by decide)).1

end HNStation
